import Mathlib

/-!
# Verification of the mock repository engine (`src/repository/mock_repo.go`)

This file gives a shallow embedding of the Go file `repository/mock_repo.go`
(the mocked-out `Repo` used for testing the review tool) and proves or refutes
the specification claims about it.

Modelling conventions:

* Go maps (`map[string]string`, `map[string]mockCommit`, ...) are embedded as
  association lists `List (String × α)`; `mapGet` is Go's comma-ok map read and
  `mapSet` is map assignment.  Go maps never hold a key twice, so theorems that
  depend on key uniqueness take an explicit `Nodup` hypothesis on the key list.
* A Go function returning `(T, error)` is embedded as `T × Option GitError`
  (`none` = `nil` error), keeping the exact pair the Go code returns.
* `ancestors` and `IsAncestor` in the Go source recurse without any bound and
  terminate only because the commit graph is acyclic.  They are embedded with
  an explicit `fuel : Nat` argument and result type `Option (...)`:
  `some res` means the Go computation finishes (within `fuel` loop iterations /
  recursion depth) and returns `res`; `none` means the computation was still
  running when the fuel was exhausted.  The stepping is exact, so any `some`
  result is the value the Go program returns.
* The Go runtime panic on assignment to a `nil` map (in `AppendNote`) is
  modelled by an `Option` result, `none` being the panic.
-/

namespace MockGit

/-- Errors are the `fmt.Errorf` strings the Go code produces. -/
abbrev GitError := String

/-- The error `fmt.Errorf("The ref %q does not exist", ref)` from `resolveLocalRef`. -/
def refNotExist (ref : String) : GitError :=
  "The ref \"" ++ ref ++ "\" does not exist"

/-- Go's comma-ok map read `v, ok := m[k]` on a map embedded as an association list. -/
def mapGet {α : Type} (m : List (String × α)) (k : String) : Option α :=
  match m with
  | [] => none
  | (k', v) :: rest => if k' = k then some v else mapGet rest k

/-- Go's map assignment `m[k] = v` on a map embedded as an association list. -/
def mapSet {α : Type} (m : List (String × α)) (k : String) (v : α) : List (String × α) :=
  match m with
  | [] => [(k, v)]
  | (k', v') :: rest => if k' = k then (k, v) :: rest else (k', v') :: mapSet rest k v

/-- The struct `mockCommit` (`Message`, `Time`, `Parents`). -/
structure MockCommit where
  message : String
  time : String
  parents : List String
deriving DecidableEq, Repr

/-- The Go zero value of `mockCommit`, produced by reading an absent map key. -/
def zeroCommit : MockCommit := ⟨"", "", []⟩

/-- The struct `mockRepoForTest` (`Head`, `Refs`, `Commits`, `Notes`). -/
structure MockRepo where
  head : String
  refs : List (String × String)
  commits : List (String × MockCommit)
  notes : List (String × List (String × String))
deriving DecidableEq, Repr

/-- Embeds `resolveLocalRef`: a ref-table lookup, then a raw-commit-identifier check,
then the "does not exist" error.  Returns Go's `(string, error)` pair. -/
def resolveLocalRef (r : MockRepo) (ref : String) : String × Option GitError :=
  match mapGet r.refs ref with
  | some commit => (commit, none)
  | none =>
    match mapGet r.commits ref with
    | some _ => (ref, none)
    | none => ("", some (refNotExist ref))

/-- Embeds `getCommit`: `commit, err := r.resolveLocalRef(ref); return r.Commits[commit], err`.
Exactly as in Go, the commit value is read from the map even on the error path
(yielding the zero value). -/
def getCommit (r : MockRepo) (ref : String) : MockCommit × Option GitError :=
  let res := resolveLocalRef r ref
  ((mapGet r.commits res.1).getD zeroCommit, res.2)

/-- Embeds `VerifyGitRef`: the error component of `resolveLocalRef`. -/
def verifyGitRef (r : MockRepo) (ref : String) : Option GitError :=
  (resolveLocalRef r ref).2

/-- Embeds `GetCommitHash`: verify the ref, then read `r.Refs[ref]` directly
(the zero value `""` if `ref` is not a key of the ref table). -/
def getCommitHash (r : MockRepo) (ref : String) : String × Option GitError :=
  match verifyGitRef r ref with
  | some e => ("", some e)
  | none => ((mapGet r.refs ref).getD "", none)

/-- Embeds `GetHeadRef`: returns `(r.Head, nil)`. -/
def getHeadRef (r : MockRepo) : String × Option GitError :=
  (r.head, none)

/-- The loop `for _, parent := range descendantCommit.Parents` inside `IsAncestor`:
take the first recursive call that returns `(true, nil)`; falls through to
`(false, nil)` when the loop is exhausted (errors of branches are skipped).
`none` (fuel ran out in a branch that Go would have evaluated) is propagated. -/
def anyParent (f : String → Option (Bool × Option GitError)) :
    List String → Option (Bool × Option GitError)
  | [] => some (false, none)
  | p :: ps =>
    match f p with
    | none => none
    | some (true, none) => some (true, none)
    | some _ => anyParent f ps

/-- Embeds `IsAncestor(ancestor, descendant)`: reflexive equality check first, then
`getCommit` on the descendant (returning `(false, err)` on failure), then the
recursive search over the descendant's parents. -/
def isAncestor (r : MockRepo) : Nat → String → String → Option (Bool × Option GitError)
  | 0, _, _ => none
  | fuel + 1, anc, desc =>
    if anc = desc then some (true, none)
    else
      match getCommit r desc with
      | (_, some e) => some (false, some e)
      | (cm, none) => anyParent (isAncestor r fuel anc) cm.parents

/-- The inner `for _, c := range queue` loop of `ancestors`: collect the parents
of every commit of the current queue in order, stopping at the first
`getCommit` error. -/
def levelParents (r : MockRepo) : List String → List String × Option GitError
  | [] => ([], none)
  | c :: cs =>
    match getCommit r c with
    | (_, some e) => ([], some e)
    | (cm, none) =>
      match levelParents r cs with
      | (_, some e) => ([], some e)
      | (rest, none) => (cm.parents ++ rest, none)

/-- The `for queue != nil` loop of `ancestors`; one unit of fuel per level.
In this Go code `nextQueue` is `nil` exactly when it is empty, so the loop
guard is an emptiness test. -/
def ancestorsLoop (r : MockRepo) :
    Nat → List String → List String → Option (List String × Option GitError)
  | _, [], acc => some (acc, none)
  | 0, _ :: _, _ => none
  | fuel + 1, queue, acc =>
    match levelParents r queue with
    | (_, some e) => some ([], some e)
    | (lp, none) => ancestorsLoop r fuel lp (acc ++ lp)

/-- Embeds `ancestors(commit)`: breadth-first enumeration of the proper ancestors of
`commit` (the commit itself is only listed if it recurs as somebody's parent). -/
def ancestors (r : MockRepo) (fuel : Nat) (commit : String) :
    Option (List String × Option GitError) :=
  ancestorsLoop r fuel [commit] []

/-- The `for _, ancestor := range ancestors` loop of `MergeBase`: first
breadth-first ancestor whose `IsAncestor(ancestor, b)` comes back `(true, nil)`;
`("", nil)` when the list is exhausted. -/
def mergeBaseScan (r : MockRepo) (fuel : Nat) (b : String) :
    List String → Option (String × Option GitError)
  | [] => some ("", none)
  | c :: cs =>
    match isAncestor r fuel c b with
    | none => none
    | some (true, none) => some (c, none)
    | some _ => mergeBaseScan r fuel b cs

/-- Embeds `MergeBase(a, b)`: scan `ancestors(a)` for the first common ancestor. -/
def mergeBase (r : MockRepo) (fuel : Nat) (a b : String) :
    Option (String × Option GitError) :=
  match ancestors r fuel a with
  | none => none
  | some (_, some e) => some ("", some e)
  | some (ancs, none) => mergeBaseScan r fuel b ancs

/-- Embeds `SwitchToRef(ref)`: the method has a value receiver, so `r.Head = ref`
mutates a copy of the struct; the pair returned here is the caller-visible
repository state after the call together with the returned error (`nil`). -/
def switchToRef (r : MockRepo) (ref : String) : MockRepo × Option GitError :=
  let _receiverCopy : MockRepo := { r with head := ref }
  (r, none)

/-- Embeds `AppendNote(ref, revision, note)`: reads `r.Notes[ref][revision]` (missing
keys give `""`), joins with `"\n"`, and assigns.  When `r.Notes[ref]` is absent
the assignment writes into a `nil` map, a Go runtime panic, modelled as `none`. -/
def appendNote (r : MockRepo) (ref revision note : String) :
    Option (MockRepo × Option GitError) :=
  let existingNotes := (mapGet ((mapGet r.notes ref).getD []) revision).getD ""
  let newNotes := existingNotes ++ "\n" ++ note
  match mapGet r.notes ref with
  | none => none
  | some row =>
    some ({ r with notes := mapSet r.notes ref (mapSet row revision newNotes) }, none)

/-- Go's `strings.Replace(s, old, new, 1)` scans left to right for the first
occurrence of the pattern; `leadsWith pat s` is the "`pat` occurs here" test. -/
def leadsWith : List Char → List Char → Bool
  | [], _ => true
  | _ :: _, [] => false
  | p :: ps, c :: cs => p = c && leadsWith ps cs

/-- Character-level body of `strings.Replace(s, old, new, 1)`: replace the
leftmost occurrence of `pat` by `rep`, leave the string unchanged otherwise. -/
def replaceFirstChars (pat rep : List Char) : List Char → List Char
  | [] => if leadsWith pat [] then rep else []
  | c :: cs =>
    if leadsWith pat (c :: cs) then rep ++ (c :: cs).drop pat.length
    else c :: replaceFirstChars pat rep cs

/-- Embeds `strings.Replace(s, pat, rep, 1)`. -/
def replaceFirst (s pat rep : String) : String :=
  String.mk (replaceFirstChars pat.data rep.data s.data)

/-- Embeds `ResolveRefCommit(ref)`: local resolution first; on failure a single retry
with `refs/heads/` rewritten to `refs/remotes/origin/`. -/
def resolveRefCommit (r : MockRepo) (ref : String) : String × Option GitError :=
  match resolveLocalRef r ref with
  | (commit, none) => (commit, none)
  | (_, some _) =>
    resolveLocalRef r (replaceFirst ref "refs/heads/" "refs/remotes/origin/")

/-- Reachability by one or more parent edges, every step going through a
successful `getCommit`.  `Reaches r c x` says `x` is a proper ancestor of `c`. -/
inductive Reaches (r : MockRepo) : String → String → Prop
  | parent {c cm p} : getCommit r c = (cm, none) → p ∈ cm.parents → Reaches r c p
  | step {c cm p x} : getCommit r c = (cm, none) → p ∈ cm.parents → Reaches r p x →
      Reaches r c x

/-! ## The pre-populated test repository (`NewMockRepoForTest`) -/

def TestTargetRef : String := "refs/heads/master"
def TestReviewRef : String := "refs/heads/ojarjur/mychange"
def TestRequestsRef : String := "refs/notes/devtools/reviews"
def TestCommentsRef : String := "refs/notes/devtools/discuss"

def TestRequestB : String :=
  "\x7b\"timestamp\": \"0000000001\", \"reviewRef\": \"refs/heads/ojarjur/mychange\", \"targetRef\": \"refs/heads/master\", \"requester\": \"ojarjur\", \"reviewers\": [\"ojarjur\"], \"description\": \"B\"\x7d"

def TestRequestD : String :=
  "\x7b\"timestamp\": \"0000000002\", \"reviewRef\": \"refs/heads/ojarjur/mychange\", \"targetRef\": \"refs/heads/master\", \"requester\": \"ojarjur\", \"reviewers\": [\"ojarjur\"], \"description\": \"D\"\x7d"

def TestRequestG : String :=
  "\x7b\"timestamp\": \"0000000004\", \"reviewRef\": \"refs/heads/ojarjur/mychange\", \"targetRef\": \"refs/heads/master\", \"requester\": \"ojarjur\", \"reviewers\": [\"ojarjur\"], \"description\": \"G\"\x7d\n\n\x7b\"timestamp\": \"0000000005\", \"reviewRef\": \"refs/heads/ojarjur/mychange\", \"targetRef\": \"refs/heads/master\", \"requester\": \"ojarjur\", \"reviewers\": [\"ojarjur\"], \"description\": \"Updated description of G\"\x7d\n\n\x7b\"timestamp\": \"0000000005\", \"reviewRef\": \"refs/heads/ojarjur/mychange\", \"targetRef\": \"refs/heads/master\", \"requester\": \"ojarjur\", \"reviewers\": [\"ojarjur\"], \"description\": \"Final description of G\"\x7d"

def TestDiscussB : String :=
  "\x7b\"timestamp\": \"0000000001\", \"author\": \"ojarjur\", \"location\": \x7b\"commit\": \"B\"\x7d, \"resolved\": true\x7d"

def TestDiscussD : String :=
  "\x7b\"timestamp\": \"0000000003\", \"author\": \"ojarjur\", \"location\": \x7b\"commit\": \"E\"\x7d, \"resolved\": true\x7d"

/-- The commit DAG of `NewMockRepoForTest`:
`A<-B`, `A<-C`, `{B,C}<-D`, `D<-E`, `E<-F`, `E<-G`, `{G,F}<-H`, `H<-I`, `F<-J`. -/
def mockRepo : MockRepo where
  head := TestTargetRef
  refs := [(TestTargetRef, "J"), (TestReviewRef, "I")]
  commits :=
    [("A", ⟨"First commit", "0", []⟩),
     ("B", ⟨"Second commit", "1", ["A"]⟩),
     ("C", ⟨"No, I'm the second commit", "1", ["A"]⟩),
     ("D", ⟨"Fourth commit", "2", ["B", "C"]⟩),
     ("E", ⟨"Fifth commit", "3", ["D"]⟩),
     ("F", ⟨"Sixth commit", "4", ["E"]⟩),
     ("G", ⟨"No, I'm the sixth commit", "4", ["E"]⟩),
     ("H", ⟨"Seventh commit", "5", ["G", "F"]⟩),
     ("I", ⟨"Eighth commit", "6", ["H"]⟩),
     ("J", ⟨"No, I'm the eighth commit", "6", ["F"]⟩)]
  notes :=
    [(TestRequestsRef, [("B", TestRequestB), ("D", TestRequestD), ("G", TestRequestG)]),
     (TestCommentsRef, [("B", TestDiscussB), ("D", TestDiscussD)])]

/-- The identifiers of the commits held in the mock commit store. -/
def mockCommitIds : List String := mockRepo.commits.map Prod.fst

/-- The breadth-first ancestor list `ancestors` produces for a commit of the
mock repository (fuel 32 is far beyond the depth of the ten-commit test DAG). -/
def ancestorsListOf (b : String) : List String :=
  ((ancestors mockRepo 32 b).getD ([], none)).1

/-! ## Serialization and hashing (`GetRepoStateHash`)

`GetRepoStateHash` is `sha1(json.Marshal(r))` rendered as lowercase hex.
Go's `encoding/json` emits struct fields in declaration order (`Head` has no
tag, the three maps are tagged `refs,omitempty`, `commits,omitempty`,
`notes,omitempty`), sorts map keys, and HTML-escapes string values. -/

/-- Lowercase hexadecimal digit. -/
def hexDigit (n : Nat) : Char :=
  if n < 10 then Char.ofNat (48 + n) else Char.ofNat (87 + n)

/-- A 32-bit word as eight lowercase hex digits (Go's `%x` on the digest). -/
def wordHex (w : Nat) : String :=
  String.mk [hexDigit ((w / 0x10000000) % 16), hexDigit ((w / 0x1000000) % 16),
    hexDigit ((w / 0x100000) % 16), hexDigit ((w / 0x10000) % 16),
    hexDigit ((w / 0x1000) % 16), hexDigit ((w / 0x100) % 16),
    hexDigit ((w / 0x10) % 16), hexDigit (w % 16)]

/-- The string escaping of Go's `encoding/json` (HTML escaping enabled, as in
`json.Marshal`): quote, backslash, the three short control escapes, `<`, `>`,
`&`, other control characters, and U+2028/U+2029. -/
def jsonEscapeChar (c : Char) : String :=
  if c = '"' then "\\\""
  else if c = '\\' then "\\\\"
  else if c = '\n' then "\\n"
  else if c = '\r' then "\\r"
  else if c = '\t' then "\\t"
  else if c = '<' then "\\u003c"
  else if c = '>' then "\\u003e"
  else if c = '&' then "\\u0026"
  else if c.toNat < 0x20 then
    "\\u00" ++ String.mk [hexDigit (c.toNat / 16), hexDigit (c.toNat % 16)]
  else if c.toNat = 0x2028 then "\\u2028"
  else if c.toNat = 0x2029 then "\\u2029"
  else String.mk [c]

/-- A JSON string literal. -/
def jsonString (s : String) : String :=
  "\"" ++ String.join (s.data.map jsonEscapeChar) ++ "\""

/-- The sorted key order `encoding/json` uses for maps (ascending string
order; UTF-8 byte order and code-point order agree). -/
def sortStrings (l : List String) : List String :=
  List.insertionSort (· ≤ ·) l

/-- Lexicographic order on `(key, value)` pairs, used only to state content
equality of note rows up to reordering. -/
def pairLE (p q : String × String) : Prop :=
  p.1 < q.1 ∨ (p.1 = q.1 ∧ p.2 ≤ q.2)

instance : DecidableRel pairLE := fun p q =>
  inferInstanceAs (Decidable (p.1 < q.1 ∨ (p.1 = q.1 ∧ p.2 ≤ q.2)))

instance : IsTrans (String × String) pairLE where
  trans a b c hab hbc := by
    rcases hab with h1 | ⟨h1, h1'⟩ <;> rcases hbc with h2 | ⟨h2, h2'⟩
    · exact Or.inl (h1.trans h2)
    · exact Or.inl (h2 ▸ h1)
    · exact Or.inl (h1 ▸ h2)
    · exact Or.inr ⟨h1.trans h2, h1'.trans h2'⟩

instance : IsTotal (String × String) pairLE where
  total a b := by
    rcases lt_trichotomy a.1 b.1 with h | h | h
    · exact Or.inl (Or.inl h)
    · rcases le_total a.2 b.2 with h' | h'
      · exact Or.inl (Or.inr ⟨h, h'⟩)
      · exact Or.inr (Or.inr ⟨h.symm, h'⟩)
    · exact Or.inr (Or.inl h)

instance : IsAntisymm (String × String) pairLE where
  antisymm a b hab hba := by
    rcases hab with h1 | ⟨h1, h1'⟩ <;> rcases hba with h2 | ⟨h2, h2'⟩
    · exact absurd h2 (lt_asymm h1)
    · exact absurd (h2 ▸ h1) (lt_irrefl _)
    · exact absurd (h1 ▸ h2) (lt_irrefl _)
    · exact Prod.ext h1 (le_antisymm h1' h2')

/-- Canonical form of a note row used to state row equality up to reordering. -/
def sortPairs (l : List (String × String)) : List (String × String) :=
  List.insertionSort pairLE l

/-- JSON object for a map: keys in sorted order, values rendered by `f`. -/
def serializeMap {α : Type} (f : α → String) (m : List (String × α)) : String :=
  "\x7b" ++ String.intercalate ","
    ((sortStrings (m.map Prod.fst)).map fun k =>
      jsonString k ++ ":" ++ ((mapGet m k).map f).getD "null") ++ "\x7d"

/-- JSON object for a `mockCommit` (`message`, `time`, `parents`, each
`omitempty`). -/
def serializeCommit (c : MockCommit) : String :=
  "\x7b" ++ String.intercalate ","
    ((if c.message = "" then [] else ["\"message\":" ++ jsonString c.message]) ++
     (if c.time = "" then [] else ["\"time\":" ++ jsonString c.time]) ++
     (if c.parents = [] then [] else
       ["\"parents\":[" ++ String.intercalate "," (c.parents.map jsonString) ++ "]"])) ++
  "\x7d"

/-- Embeds `json.Marshal` of a `mockRepoForTest` value: `Head` always present, the
three maps omitted when empty (`omitempty`), keys canonically sorted. -/
def marshalRepo (r : MockRepo) : String :=
  "\x7b" ++ String.intercalate ","
    (["\"Head\":" ++ jsonString r.head] ++
     (if r.refs = [] then [] else ["\"refs\":" ++ serializeMap jsonString r.refs]) ++
     (if r.commits = [] then [] else
       ["\"commits\":" ++ serializeMap serializeCommit r.commits]) ++
     (if r.notes = [] then [] else
       ["\"notes\":" ++ serializeMap (serializeMap jsonString) r.notes])) ++
  "\x7d"

/-- UTF-8 encoding of one character (Go's `[]byte(s)` view of a string). -/
def utf8Char (c : Char) : List Nat :=
  let n := c.toNat
  if n < 0x80 then [n]
  else if n < 0x800 then [0xC0 ||| (n >>> 6), 0x80 ||| (n &&& 0x3F)]
  else if n < 0x10000 then
    [0xE0 ||| (n >>> 12), 0x80 ||| ((n >>> 6) &&& 0x3F), 0x80 ||| (n &&& 0x3F)]
  else
    [0xF0 ||| (n >>> 18), 0x80 ||| ((n >>> 12) &&& 0x3F), 0x80 ||| ((n >>> 6) &&& 0x3F),
     0x80 ||| (n &&& 0x3F)]

def utf8BytesList : List Char → List Nat
  | [] => []
  | c :: cs => utf8Char c ++ utf8BytesList cs

/-- The UTF-8 bytes of a string. -/
def utf8Bytes (s : String) : List Nat := utf8BytesList s.data

/-- Left rotation of a 32-bit word. -/
def rotl (n x : Nat) : Nat := ((x <<< n) ||| (x >>> (32 - n))) &&& 0xFFFFFFFF

/-- Big-endian byte decomposition (`n` bytes). -/
def bytesBE : Nat → Nat → List Nat
  | 0, _ => []
  | n + 1, x => bytesBE n (x / 256) ++ [x % 256]

/-- SHA-1 padding: `0x80`, zeros to 56 mod 64, then the 64-bit bit length. -/
def sha1Pad (msg : List Nat) : List Nat :=
  msg ++ [0x80] ++ List.replicate ((119 - (msg.length % 64)) % 64) 0 ++
    bytesBE 8 (msg.length * 8)

/-- Split into 64-byte blocks (the fuel is the list length, ample since every
step consumes at least one byte). -/
def chunks64 : Nat → List Nat → List (List Nat)
  | 0, _ => []
  | _ + 1, [] => []
  | fuel + 1, l => l.take 64 :: chunks64 fuel (l.drop 64)

/-- Group bytes into big-endian 32-bit words. -/
def toWordsBE : List Nat → List Nat
  | b0 :: b1 :: b2 :: b3 :: rest =>
    (((b0 * 256 + b1) * 256 + b2) * 256 + b3) :: toWordsBE rest
  | _ => []

/-- Message-schedule extension from 16 to 80 words; `rev` holds the words
produced so far, most recent first, so `rev.getD 2` is `w[i-3]`, `rev.getD 7`
is `w[i-8]`, `rev.getD 13` is `w[i-14]` and `rev.getD 15` is `w[i-16]`. -/
def extendLoop : Nat → List Nat → List Nat
  | 0, rev => rev
  | n + 1, rev =>
    extendLoop n
      ((rotl 1 ((rev.getD 2 0) ^^^ (rev.getD 7 0) ^^^ (rev.getD 13 0) ^^^ (rev.getD 15 0)))
        :: rev)

/-- The SHA-1 round function. -/
def sha1F (i b c d : Nat) : Nat :=
  if i < 20 then (b &&& c) ||| ((b ^^^ 0xFFFFFFFF) &&& d)
  else if i < 40 then b ^^^ c ^^^ d
  else if i < 60 then (b &&& c) ||| (b &&& d) ||| (c &&& d)
  else b ^^^ c ^^^ d

/-- The SHA-1 round constants. -/
def sha1K (i : Nat) : Nat :=
  if i < 20 then 0x5A827999 else if i < 40 then 0x6ED9EBA1
  else if i < 60 then 0x8F1BBCDC else 0xCA62C1D6

/-- The 80 SHA-1 rounds over one message schedule. -/
def sha1Rounds : Nat → Nat × Nat × Nat × Nat × Nat → List Nat → Nat × Nat × Nat × Nat × Nat
  | _, st, [] => st
  | i, (a, b, c, d, e), w :: ws =>
    sha1Rounds (i + 1)
      ((rotl 5 a + sha1F i b c d + e + sha1K i + w) % 4294967296, a, rotl 30 b, c, d) ws

/-- Fold the compression function over the 64-byte blocks. -/
def sha1Blocks : Nat × Nat × Nat × Nat × Nat → List (List Nat) → Nat × Nat × Nat × Nat × Nat
  | h, [] => h
  | (h0, h1, h2, h3, h4), block :: rest =>
    let ws := (extendLoop 64 (toWordsBE block).reverse).reverse
    let s := sha1Rounds 0 (h0, h1, h2, h3, h4) ws
    sha1Blocks ((h0 + s.1) % 4294967296, (h1 + s.2.1) % 4294967296,
      (h2 + s.2.2.1) % 4294967296, (h3 + s.2.2.2.1) % 4294967296,
      (h4 + s.2.2.2.2) % 4294967296) rest

/-- SHA-1 digest of a byte sequence, as 40 lowercase hex characters
(Go's `fmt.Sprintf("%x", sha1.Sum(b))`). -/
def sha1Hex (msg : List Nat) : String :=
  let padded := sha1Pad msg
  let h := sha1Blocks (0x67452301, 0xEFCDAB89, 0x98BADCFE, 0x10325476, 0xC3D2E1F0)
    (chunks64 padded.length padded)
  wordHex h.1 ++ wordHex h.2.1 ++ wordHex h.2.2.1 ++ wordHex h.2.2.2.1 ++ wordHex h.2.2.2.2

/-- Embeds `GetRepoStateHash`: `fmt.Sprintf("%x", sha1.Sum([]byte(json.Marshal(r))))`
with a nil error (marshalling this struct cannot fail). -/
def getRepoStateHash (r : MockRepo) : String × Option GitError :=
  (sha1Hex (utf8Bytes (marshalRepo r)), none)

/-- A reordering of `mockRepo`'s tables with identical content: refs swapped,
notes-refs swapped, and the discussion row listed in the opposite order. -/
def mockRepoShuffled : MockRepo where
  head := TestTargetRef
  refs := [(TestReviewRef, "I"), (TestTargetRef, "J")]
  commits := mockRepo.commits
  notes :=
    [(TestCommentsRef, [("D", TestDiscussD), ("B", TestDiscussB)]),
     (TestRequestsRef, [("B", TestRequestB), ("D", TestRequestD), ("G", TestRequestG)])]

/-! ## Helper lemmas -/

theorem mapGet_mapSet_self {α : Type} (m : List (String × α)) (k : String) (v : α) :
    mapGet (mapSet m k v) k = some v := by
  induction m with
  | nil => simp [mapGet, mapSet]
  | cons hd tl ih =>
    obtain ⟨k', v'⟩ := hd
    by_cases h : k' = k
    · simp [mapGet, mapSet, h]
    · simp [mapGet, mapSet, h, ih]

theorem resolveLocalRef_error_shape (r : MockRepo) (s : String) (e : GitError)
    (h : (resolveLocalRef r s).2 = some e) : e = refNotExist s := by
  unfold resolveLocalRef at h
  rcases h1 : mapGet r.refs s with _ | c
  · rcases h2 : mapGet r.commits s with _ | cm
    · simp [h1, h2] at h
      exact h.symm
    · simp [h1, h2] at h
  · simp [h1] at h

/-! ## Claim C1 -/

/-- C1 counterexample: the spec claims `MergeBase(a, a) == a`, but on the mock
repository `MergeBase("B", "B")` returns `"A"` (the first parent of `B`), not
`"B"`: `ancestors` never lists the commit itself, so the scan starts at the
parents. -/
theorem mergeBase_self_not_self :
    mergeBase mockRepo 32 "B" "B" = some ("A", none) ∧ ("A" : String) ≠ "B" := by
  decide

/-- C1 (amended): for every identifier `a` of a commit in the mock commit
store, `MergeBase(a, a)` returns, with no error, the first parent of `a` when
`a` has parents and the empty string when `a` is a root commit — never `a`
itself. -/
theorem mergeBase_self_eq_first_parent :
    ∀ p ∈ mockRepo.commits, mergeBase mockRepo 32 p.1 p.1 = some (p.2.parents.headD "", none) := by
  decide

/-- Witness for C1 (amended) at the merge commit `D`, whose first parent is `B`. -/
theorem mergeBase_self_eq_first_parent_witness :
    mergeBase mockRepo 32 "D" "D" = some ("B", none) :=
  mergeBase_self_eq_first_parent ("D", ⟨"Fourth commit", "2", ["B", "C"]⟩) (by decide)

/-! ## Claim C2 -/

/-- C2 counterexample: the spec claims `IsAncestor("C", "G") == false`, but in
the test DAG `C` is an ancestor of `G` through `D` and `E`, and the code
returns `(true, nil)`. -/
theorem isAncestor_C_G_not_false :
    isAncestor mockRepo 32 "C" "G" ≠ some (false, none) := by decide

/-- C2 (amended): on the pre-populated mock repository, `IsAncestor("A", "J")`
returns true and `IsAncestor("C", "G")` also returns true (not false), both
without error. -/
theorem isAncestor_concrete_scenario :
    isAncestor mockRepo 32 "A" "J" = some (true, none) ∧
    isAncestor mockRepo 32 "C" "G" = some (true, none) := by decide

/-! ## Claim C3 -/

/-- C3 counterexample: at `a = b = "A"` the two query paths disagree —
`IsAncestor("A", "A")` is reflexively true while the breadth-first enumeration
of `"A"`'s ancestors is empty, so the claimed equivalence fails. -/
theorem ancestors_isAncestor_disagree_on_self :
    isAncestor mockRepo 32 "A" "A" = some (true, none) ∧
    ancestors mockRepo 32 "A" = some ([], none) ∧
    ("A" : String) ∉ ([] : List String) := by decide

/-- C3 (amended): for all commits `a`, `b` of the mock commit store, the
breadth-first enumeration (which never errors on the store) contains `a` iff
`IsAncestor(a, b)` returns true — provided `a ≠ b`; on the diagonal
`IsAncestor` is reflexively true while the enumeration excludes the commit
itself. -/
theorem ancestors_isAncestor_agree_off_diagonal :
    ∀ a ∈ mockCommitIds, ∀ b ∈ mockCommitIds,
      ancestors mockRepo 32 b = some (ancestorsListOf b, none) ∧
      (a ≠ b → (a ∈ ancestorsListOf b ↔ isAncestor mockRepo 32 a b = some (true, none))) ∧
      (a = b → isAncestor mockRepo 32 a b = some (true, none) ∧ a ∉ ancestorsListOf b) := by
  decide

/-- Witness for C3 (amended) at `a = "A"`, `b = "J"`. -/
theorem ancestors_isAncestor_agree_witness :
    ("A" ∈ ancestorsListOf "J") ∧ isAncestor mockRepo 32 "A" "J" = some (true, none) :=
  ⟨((ancestors_isAncestor_agree_off_diagonal "A" (by decide) "J" (by decide)).2.1
      (by decide)).mpr (by decide), by decide⟩

/-! ## Claim C4 (general, for any repository value and any fuel) -/

theorem levelParents_ok_mem (r : MockRepo) (queue lp : List String)
    (h : levelParents r queue = (lp, none)) :
    ∀ c ∈ queue, ∃ cm, getCommit r c = (cm, none) ∧ cm.parents ⊆ lp := by
  induction queue generalizing lp with
  | nil => intro c hc; cases hc
  | cons hd tl ih =>
    intro c hc
    rcases hg : getCommit r hd with ⟨cm, _ | e⟩
    · rcases hrest : levelParents r tl with ⟨rest, _ | e'⟩
      · simp only [levelParents, hg, hrest] at h
        injection h with h1 h2
        subst h1
        rcases List.mem_cons.mp hc with rfl | hc
        · exact ⟨cm, hg, List.subset_append_left _ _⟩
        · obtain ⟨cm', hg', hsub⟩ := ih rest hrest c hc
          exact ⟨cm', hg', hsub.trans (List.subset_append_right _ _)⟩
      · simp [levelParents, hg, hrest] at h
    · simp [levelParents, hg] at h

theorem levelParents_ok_src (r : MockRepo) (queue lp : List String)
    (h : levelParents r queue = (lp, none)) :
    ∀ p ∈ lp, ∃ c ∈ queue, ∃ cm, getCommit r c = (cm, none) ∧ p ∈ cm.parents := by
  induction queue generalizing lp with
  | nil =>
    intro p hp
    simp only [levelParents] at h
    injection h with h1 h2
    subst h1
    cases hp
  | cons hd tl ih =>
    intro p hp
    rcases hg : getCommit r hd with ⟨cm, _ | e⟩
    · rcases hrest : levelParents r tl with ⟨rest, _ | e'⟩
      · simp only [levelParents, hg, hrest] at h
        injection h with h1 h2
        subst h1
        rcases List.mem_append.mp hp with hp | hp
        · exact ⟨hd, List.mem_cons_self _ _, cm, hg, hp⟩
        · obtain ⟨c, hc, cm', hg', hp'⟩ := ih rest hrest p hp
          exact ⟨c, List.mem_cons_of_mem _ hc, cm', hg', hp'⟩
      · simp [levelParents, hg, hrest] at h
    · simp [levelParents, hg] at h

theorem ancestorsLoop_reaches (r : MockRepo) (fuel : Nat) :
    ∀ queue acc out, ancestorsLoop r fuel queue acc = some (out, none) →
      ∀ x ∈ out, x ∈ acc ∨ ∃ c ∈ queue, Reaches r c x := by
  induction fuel with
  | zero =>
    intro queue acc out h x hx
    cases queue with
    | nil => unfold ancestorsLoop at h; cases h; exact Or.inl hx
    | cons hd tl => simp [ancestorsLoop] at h
  | succ fuel ih =>
    intro queue acc out h x hx
    cases queue with
    | nil => unfold ancestorsLoop at h; cases h; exact Or.inl hx
    | cons hd tl =>
      unfold ancestorsLoop at h
      split at h
      · simp at h
      · rename_i lp hlp
        rcases ih lp (acc ++ lp) out h x hx with hin | ⟨c, hc, hr⟩
        · rcases List.mem_append.mp hin with hin | hin
          · exact Or.inl hin
          · obtain ⟨c, hc, cm, hg, hp⟩ := levelParents_ok_src r _ _ hlp x hin
            exact Or.inr ⟨c, hc, Reaches.parent hg hp⟩
        · obtain ⟨c', hc', cm, hg, hp⟩ := levelParents_ok_src r _ _ hlp c hc
          exact Or.inr ⟨c', hc', Reaches.step hg hp hr⟩

theorem anyParent_isSome (f : String → Option (Bool × Option GitError))
    (ps : List String) (hall : ∀ p ∈ ps, (f p).isSome) : (anyParent f ps).isSome := by
  induction ps with
  | nil => simp [anyParent]
  | cons hd tl ih =>
    cases hf : f hd with
    | none => simpa [hf] using hall hd (List.mem_cons_self _ _)
    | some v =>
      obtain ⟨b, e⟩ := v
      cases b <;> cases e <;>
        simp [anyParent, hf] <;>
        exact ih fun p hp => hall p (List.mem_cons_of_mem _ hp)

theorem anyParent_true (f : String → Option (Bool × Option GitError)) :
    ∀ ps : List String, (∀ p ∈ ps, (f p).isSome) →
      ∀ p0 ∈ ps, f p0 = some (true, none) → anyParent f ps = some (true, none) := by
  intro ps
  induction ps with
  | nil => intro _ p0 hp0 _; cases hp0
  | cons hd tl ih =>
    intro hall p0 hp0 ht
    cases hf : f hd with
    | none => simpa [hf] using hall hd (List.mem_cons_self _ _)
    | some v =>
      obtain ⟨b, e⟩ := v
      rcases List.mem_cons.mp hp0 with rfl | hp0
      · have heq := ht.symm.trans hf
        injection heq with heq
        injection heq with h1 h2
        subst h1
        subst h2
        simp [anyParent, hf]
      · cases b <;> cases e <;> simp [anyParent, hf] <;>
          exact ih (fun p hp => hall p (List.mem_cons_of_mem _ hp)) p0 hp0 ht

theorem ancestorsLoop_isAncestor_isSome (r : MockRepo) (fuel : Nat) :
    ∀ queue acc out, ancestorsLoop r fuel queue acc = some (out, none) →
      ∀ c ∈ queue, ∀ x, (isAncestor r (fuel + 1) x c).isSome := by
  induction fuel with
  | zero =>
    intro queue acc out h c hc x
    cases queue with
    | nil => cases hc
    | cons hd tl => simp [ancestorsLoop] at h
  | succ fuel ih =>
    intro queue acc out h c hc x
    cases queue with
    | nil => cases hc
    | cons hd tl =>
      unfold ancestorsLoop at h
      split at h
      · simp at h
      · rename_i lp hlp
        by_cases hxc : x = c
        · simp [isAncestor, hxc]
        · obtain ⟨cm, hg, hsub⟩ := levelParents_ok_mem r _ _ hlp c hc
          simp only [isAncestor, hxc, if_false, hg]
          exact anyParent_isSome _ _ fun p hp =>
            ih lp (acc ++ lp) out h p (hsub hp) x

theorem ancestorsLoop_isAncestor_true (r : MockRepo) (fuel : Nat) :
    ∀ queue acc out, ancestorsLoop r fuel queue acc = some (out, none) →
      ∀ c ∈ queue, ∀ x, Reaches r c x → isAncestor r (fuel + 1) x c = some (true, none) := by
  induction fuel with
  | zero =>
    intro queue acc out h c hc x _
    cases queue with
    | nil => cases hc
    | cons hd tl => simp [ancestorsLoop] at h
  | succ fuel ih =>
    intro queue acc out h c hc x hr
    cases queue with
    | nil => cases hc
    | cons hd tl =>
      unfold ancestorsLoop at h
      split at h
      · simp at h
      · rename_i lp hlp
        obtain ⟨cm, hg, hsub⟩ := levelParents_ok_mem r _ _ hlp c hc
        by_cases hxc : x = c
        · simp [isAncestor, hxc]
        · simp only [isAncestor, hxc, if_false, hg]
          cases hr with
          | parent hg' hp =>
            have hcm : _ = cm := congrArg Prod.fst (hg'.symm.trans hg)
            refine anyParent_true _ _
              (fun p hp => ancestorsLoop_isAncestor_isSome r fuel lp (acc ++ lp) out h p
                (hsub hp) x)
              x (hcm ▸ hp) (by simp [isAncestor])
          | step hg' hp hr' =>
            rename_i p hx
            have hcm : _ = cm := congrArg Prod.fst (hg'.symm.trans hg)
            refine anyParent_true _ _
              (fun q hq => ancestorsLoop_isAncestor_isSome r fuel lp (acc ++ lp) out h q
                (hsub hq) x)
              _ (hcm ▸ hp) (ih lp (acc ++ lp) out h _ (hsub (hcm ▸ hp)) x hr')

theorem mergeBaseScan_mem (r : MockRepo) (fuel : Nat) (b : String) :
    ∀ l res, mergeBaseScan r fuel b l = some (res, none) → res ≠ "" →
      res ∈ l ∧ isAncestor r fuel res b = some (true, none) := by
  intro l
  induction l with
  | nil =>
    intro res h hne
    unfold mergeBaseScan at h
    cases h
    exact absurd rfl hne
  | cons hd tl ih =>
    intro res h hne
    unfold mergeBaseScan at h
    split at h
    · simp at h
    · rename_i hhd
      cases h
      exact ⟨List.mem_cons_self _ _, hhd⟩
    · obtain ⟨hm, ha⟩ := ih res h hne
      exact ⟨List.mem_cons_of_mem _ hm, ha⟩

/-- C4: whenever `MergeBase(a, b)` returns a non-empty result `res` with no
error, both `IsAncestor(res, b)` and `IsAncestor(res, a)` return `(true, nil)`
(the latter needing at most one more unit of recursion depth than the
breadth-first traversal used).  This holds for every repository value, not just
the mock test data. -/
theorem mergeBase_result_is_common_ancestor (r : MockRepo) (fuel : Nat) (a b res : String)
    (h : mergeBase r fuel a b = some (res, none)) (hne : res ≠ "") :
    isAncestor r fuel res b = some (true, none) ∧
    isAncestor r (fuel + 1) res a = some (true, none) := by
  unfold mergeBase at h
  split at h
  · simp at h
  · simp at h
  · rename_i ancs heq
    obtain ⟨hmem, hb⟩ := mergeBaseScan_mem r fuel b ancs res h hne
    refine ⟨hb, ?_⟩
    unfold ancestors at heq
    rcases ancestorsLoop_reaches r fuel [a] [] ancs heq res hmem with hacc | ⟨c, hc, hr⟩
    · cases hacc
    · have hca : c = a := by simpa using hc
      exact ancestorsLoop_isAncestor_true r fuel [a] [] ancs heq a (by simp) res (hca ▸ hr)

/-- Witness for C4 at `MergeBase("I", "J") = "F"` on the mock repository. -/
theorem mergeBase_common_ancestor_witness :
    isAncestor mockRepo 32 "F" "J" = some (true, none) ∧
    isAncestor mockRepo 33 "F" "I" = some (true, none) :=
  mergeBase_result_is_common_ancestor mockRepo 32 "I" "J" "F" (by decide) (by decide)

/-! ## Claim C5 -/

/-- C5: `ResolveRefCommit(ref)` first attempts local resolution — the ref-table
lookup, then the raw-commit-identifier path; on failure it retries exactly once
with the first `refs/heads/` occurrence rewritten to `refs/remotes/origin/`,
and when both attempts fail the error returned is the second attempt's error,
which names the rewritten remote path. -/
theorem resolveRefCommit_fallback (r : MockRepo) (ref : String) :
    (∀ c, mapGet r.refs ref = some c → resolveRefCommit r ref = (c, none)) ∧
    (∀ cm, mapGet r.refs ref = none → mapGet r.commits ref = some cm →
      resolveRefCommit r ref = (ref, none)) ∧
    (∀ e, (resolveLocalRef r ref).2 = some e →
      resolveRefCommit r ref =
        resolveLocalRef r (replaceFirst ref "refs/heads/" "refs/remotes/origin/")) ∧
    (∀ e, (resolveRefCommit r ref).2 = some e →
      e = refNotExist (replaceFirst ref "refs/heads/" "refs/remotes/origin/")) := by
  refine ⟨fun c h => ?_, fun cm h1 h2 => ?_, fun e h => ?_, fun e h => ?_⟩
  · simp [resolveRefCommit, resolveLocalRef, h]
  · simp [resolveRefCommit, resolveLocalRef, h1, h2]
  · unfold resolveRefCommit
    rcases heq : resolveLocalRef r ref with ⟨c, _ | e'⟩
    · rw [heq] at h; simp at h
    · simp
  · unfold resolveRefCommit at h
    rcases heq : resolveLocalRef r ref with ⟨c, _ | e'⟩
    · rw [heq] at h; simp at h
    · rw [heq] at h
      exact resolveLocalRef_error_shape r _ e h

/-- Witness for C5: `refs/heads/gone` resolves neither locally nor as
`refs/remotes/origin/gone`, and the surfaced error names the remote path. -/
theorem resolveRefCommit_fallback_witness :
    resolveRefCommit mockRepo "refs/heads/gone" =
      ("", some (refNotExist "refs/remotes/origin/gone")) := by
  have h := (resolveRefCommit_fallback mockRepo "refs/heads/gone").2.2.1
    (refNotExist "refs/heads/gone") (by decide)
  rw [h]; decide

/-! ## Claim C6 -/

/-- C6 counterexample: when the notes-ref has no entries at all (`r.Notes[ref]`
is a nil map), `AppendNote` does not succeed — the assignment
`r.Notes[ref][revision] = newNotes` writes into a nil map and panics (`none`). -/
theorem appendNote_nil_ref_panics :
    appendNote mockRepo "refs/notes/devtools/other" "B" "a note" = none := by decide

/-- C6 (amended): `AppendNote(ref, revision, note)` succeeds and creates the
`(ref, revision)` entry when the revision is absent, storing the note joined to
the prior payload (empty when absent) by a line separator — provided the
notes-ref itself already has a row in the notes table; when the notes-ref has
no entries at all, the write panics on a nil map instead of succeeding. -/
theorem appendNote_creates_entry (r : MockRepo) (ref rev note : String)
    (row : List (String × String)) (hrow : mapGet r.notes ref = some row) :
    appendNote r ref rev note =
      some (MockRepo.mk r.head r.refs r.commits
        (mapSet r.notes ref
          (mapSet row rev (((mapGet row rev).getD "") ++ "\n" ++ note))), none) ∧
    mapGet (mapSet row rev (((mapGet row rev).getD "") ++ "\n" ++ note)) rev =
      some (((mapGet row rev).getD "") ++ "\n" ++ note) := by
  constructor
  · simp [appendNote, hrow]
  · exact mapGet_mapSet_self row rev _

set_option maxRecDepth 16384 in
/-- Witness for C6 (amended): appending under `refs/notes/devtools/reviews` to
the previously unannotated revision `"E"` of the mock repository. -/
theorem appendNote_creates_entry_witness :
    appendNote mockRepo TestRequestsRef "E" "hello" =
      some (MockRepo.mk mockRepo.head mockRepo.refs mockRepo.commits
        (mapSet mockRepo.notes TestRequestsRef
          (mapSet [("B", TestRequestB), ("D", TestRequestD), ("G", TestRequestG)] "E"
            (((mapGet [("B", TestRequestB), ("D", TestRequestD), ("G", TestRequestG)]
                "E").getD "") ++ "\n" ++ "hello"))), none) ∧
    mapGet (mapSet [("B", TestRequestB), ("D", TestRequestD), ("G", TestRequestG)] "E"
        (((mapGet [("B", TestRequestB), ("D", TestRequestD), ("G", TestRequestG)]
            "E").getD "") ++ "\n" ++ "hello")) "E" =
      some (((mapGet [("B", TestRequestB), ("D", TestRequestD), ("G", TestRequestG)]
          "E").getD "") ++ "\n" ++ "hello") :=
  appendNote_creates_entry mockRepo TestRequestsRef "E" "hello"
    [("B", TestRequestB), ("D", TestRequestD), ("G", TestRequestG)] (by decide)

/-! ## Claim C7 -/

set_option maxRecDepth 8192 in
/-- Sanity check of the SHA-1 implementation against the standard test vector. -/
theorem sha1Hex_known_vector :
    sha1Hex (utf8Bytes "abc") = "a9993e364706816aba3e25717850c26c9cd0d89d" := by decide

theorem mapGet_isSome_iff_mem {α : Type} (m : List (String × α)) (k : String) :
    (mapGet m k).isSome ↔ k ∈ m.map Prod.fst := by
  induction m with
  | nil => simp [mapGet]
  | cons hd tl ih =>
    obtain ⟨k', v⟩ := hd
    by_cases h : k' = k
    · simp [mapGet, h]
    · simp only [mapGet, if_neg h, List.map_cons, List.mem_cons, ih]
      constructor
      · exact Or.inr
      · rintro (rfl | hk)
        · exact absurd rfl h
        · exact hk

theorem mapGet_eq_some_mem {α : Type} (m : List (String × α)) (k : String) (v : α)
    (h : mapGet m k = some v) : (k, v) ∈ m := by
  induction m with
  | nil => simp [mapGet] at h
  | cons hd tl ih =>
    obtain ⟨k', v'⟩ := hd
    by_cases hk : k' = k
    · simp only [mapGet, if_pos hk] at h
      injection h with h
      subst hk
      subst h
      exact List.mem_cons_self _ _
    · simp only [mapGet, if_neg hk] at h
      exact List.mem_cons_of_mem _ (ih h)

theorem mapGet_map_val {α β : Type} (f : α → β) (m : List (String × α)) (k : String) :
    mapGet (m.map fun p => (p.1, f p.2)) k = (mapGet m k).map f := by
  induction m with
  | nil => simp [mapGet]
  | cons hd tl ih =>
    obtain ⟨k', v⟩ := hd
    by_cases h : k' = k
    · simp [mapGet, h]
    · simp [mapGet, h, ih]

theorem mapGet_perm {α : Type} {m1 m2 : List (String × α)} (h : m1.Perm m2) :
    (m1.map Prod.fst).Nodup → ∀ k, mapGet m1 k = mapGet m2 k := by
  induction h with
  | nil => intro _ _; rfl
  | cons p h ih =>
    intro hn k
    obtain ⟨k', v⟩ := p
    by_cases hk : k' = k
    · simp [mapGet, hk]
    · simp only [mapGet, if_neg hk]
      exact ih (by simpa using (List.nodup_cons.mp (by simpa using hn)).2) k
  | swap x y l =>
    intro hn k
    obtain ⟨ka, va⟩ := x
    obtain ⟨kb, vb⟩ := y
    have hne : kb ≠ ka := by
      simp only [List.map_cons, List.nodup_cons, List.mem_cons] at hn
      exact fun he => hn.1 (Or.inl he)
    by_cases h1 : kb = k <;> by_cases h2 : ka = k
    · exact absurd (h1.trans h2.symm) hne
    · simp [mapGet, h1, h2]
    · simp [mapGet, h1, h2]
    · simp [mapGet, h1, h2]
  | trans h1 h2 ih1 ih2 =>
    intro hn k
    have hn2 := ((h1.map Prod.fst).nodup_iff).mp hn
    exact (ih1 hn k).trans (ih2 hn2 k)

theorem sortStrings_perm_eq {l1 l2 : List String} (h : l1.Perm l2) :
    sortStrings l1 = sortStrings l2 :=
  List.eq_of_perm_of_sorted
    ((List.perm_insertionSort _ l1).trans (h.trans (List.perm_insertionSort _ l2).symm))
    (List.sorted_insertionSort _ l1) (List.sorted_insertionSort _ l2)

theorem sortPairs_perm_eq {l1 l2 : List (String × String)} (h : l1.Perm l2) :
    sortPairs l1 = sortPairs l2 :=
  List.eq_of_perm_of_sorted
    ((List.perm_insertionSort _ l1).trans (h.trans (List.perm_insertionSort _ l2).symm))
    (List.sorted_insertionSort _ l1) (List.sorted_insertionSort _ l2)

theorem perm_nil_iff {α : Type} {l1 l2 : List α} (h : l1.Perm l2) : l1 = [] ↔ l2 = [] := by
  constructor
  · intro he
    subst he
    exact h.nil_eq.symm
  · intro he
    subst he
    exact h.symm.nil_eq.symm

theorem serializeMap_eq_of {α : Type} (f : α → String) (m1 m2 : List (String × α))
    (hkeys : sortStrings (m1.map Prod.fst) = sortStrings (m2.map Prod.fst))
    (hget : ∀ k ∈ sortStrings (m2.map Prod.fst), mapGet m1 k = mapGet m2 k ∨
      ((mapGet m1 k).map f).getD "null" = ((mapGet m2 k).map f).getD "null") :
    serializeMap f m1 = serializeMap f m2 := by
  unfold serializeMap
  rw [hkeys]
  exact congrArg (fun t => "\x7b" ++ (String.intercalate "," t ++ "\x7d"))
    (List.map_congr_left fun k hk => by
      rcases hget k hk with hg | hg
      · rw [hg]
      · rw [hg])

theorem serializeMap_perm {α : Type} (f : α → String) {m1 m2 : List (String × α)}
    (h : m1.Perm m2) (hn : (m1.map Prod.fst).Nodup) :
    serializeMap f m1 = serializeMap f m2 :=
  serializeMap_eq_of f m1 m2 (sortStrings_perm_eq (h.map Prod.fst))
    (fun k _ => Or.inl (mapGet_perm h hn k))

theorem serializeMap_notes_eq {n1 n2 : List (String × List (String × String))}
    (h : (n1.map fun p => (p.1, sortPairs p.2)).Perm (n2.map fun p => (p.1, sortPairs p.2)))
    (hn1 : (n1.map Prod.fst).Nodup)
    (hrows1 : ∀ p ∈ n1, (p.2.map Prod.fst).Nodup) :
    serializeMap (serializeMap jsonString) n1 = serializeMap (serializeMap jsonString) n2 := by
  have hk1 : (n1.map fun p => (p.1, sortPairs p.2)).map Prod.fst = n1.map Prod.fst := by
    simp [List.map_map, Function.comp]
  have hk2 : (n2.map fun p => (p.1, sortPairs p.2)).map Prod.fst = n2.map Prod.fst := by
    simp [List.map_map, Function.comp]
  have hkeysperm : (n1.map Prod.fst).Perm (n2.map Prod.fst) := by
    have hp := h.map Prod.fst
    rwa [hk1, hk2] at hp
  refine serializeMap_eq_of _ n1 n2 (sortStrings_perm_eq hkeysperm) fun k hk => Or.inr ?_
  have hk2mem : k ∈ n2.map Prod.fst := by
    simpa [sortStrings, List.mem_insertionSort] using hk
  have hk1mem : k ∈ n1.map Prod.fst := hkeysperm.mem_iff.mpr hk2mem
  obtain ⟨row1, hrow1⟩ := Option.isSome_iff_exists.mp
    ((mapGet_isSome_iff_mem n1 k).mpr hk1mem)
  obtain ⟨row2, hrow2⟩ := Option.isSome_iff_exists.mp
    ((mapGet_isSome_iff_mem n2 k).mpr hk2mem)
  have t1 : mapGet (n1.map fun p => (p.1, sortPairs p.2)) k = some (sortPairs row1) := by
    rw [mapGet_map_val, hrow1]; rfl
  have t2 : mapGet (n2.map fun p => (p.1, sortPairs p.2)) k = some (sortPairs row2) := by
    rw [mapGet_map_val, hrow2]; rfl
  have hnt : ((n1.map fun p => (p.1, sortPairs p.2)).map Prod.fst).Nodup := by
    rw [hk1]; exact hn1
  have hsorteq : sortPairs row1 = sortPairs row2 := by
    have heq := mapGet_perm h hnt k
    rw [t1, t2] at heq
    injection heq
  have hrowperm : row1.Perm row2 := by
    have p1 : (sortPairs row1).Perm row1 := List.perm_insertionSort pairLE row1
    have p2 : (sortPairs row2).Perm row2 := List.perm_insertionSort pairLE row2
    rw [hsorteq] at p1
    exact p1.symm.trans p2
  have hrownodup : (row1.map Prod.fst).Nodup :=
    hrows1 (k, row1) (mapGet_eq_some_mem n1 k row1 hrow1)
  rw [hrow1, hrow2]
  simp only [Option.map_some', Option.getD_some]
  rw [serializeMap_perm jsonString hrowperm hrownodup]

set_option maxRecDepth 8192 in
/-- C7 counterexample: the hash also covers the `Head` field, so two repository
values with identical refs, commits and notes but different heads hash
differently — the claim as stated (content of the three tables only) fails. -/
theorem repoStateHash_depends_on_head :
    (MockRepo.mk "a" [] [] []).refs = (MockRepo.mk "b" [] [] []).refs ∧
    (MockRepo.mk "a" [] [] []).commits = (MockRepo.mk "b" [] [] []).commits ∧
    (MockRepo.mk "a" [] [] []).notes = (MockRepo.mk "b" [] [] []).notes ∧
    getRepoStateHash (MockRepo.mk "a" [] [] []) ≠ getRepoStateHash (MockRepo.mk "b" [] [] []) := by
  refine ⟨rfl, rfl, rfl, ?_⟩
  decide

/-- C7 (amended): `GetRepoStateHash` is deterministic given the head and the
content of the three tables: for two repository values with the same `Head`
and with refs, commits and notes equal as key-value collections (tables and
note rows may be permuted arbitrarily; Go maps have unique keys, captured by
the `Nodup` hypotheses), the hash strings coincide — the serialization
canonicalizes every map by sorting its keys, so map iteration order is
irrelevant. -/
theorem repoStateHash_deterministic (r1 r2 : MockRepo)
    (hHead : r1.head = r2.head)
    (hRefs : r1.refs.Perm r2.refs) (hRefsN : (r1.refs.map Prod.fst).Nodup)
    (hCommits : r1.commits.Perm r2.commits) (hCommitsN : (r1.commits.map Prod.fst).Nodup)
    (hNotes : (r1.notes.map fun p => (p.1, sortPairs p.2)).Perm
      (r2.notes.map fun p => (p.1, sortPairs p.2)))
    (hNotesN : (r1.notes.map Prod.fst).Nodup)
    (hRows : ∀ p ∈ r1.notes, (p.2.map Prod.fst).Nodup) :
    getRepoStateHash r1 = getRepoStateHash r2 := by
  have hnotes_nil : (r1.notes = []) ↔ (r2.notes = []) := by
    have hp := perm_nil_iff hNotes
    simpa [List.map_eq_nil_iff] using hp
  have hm : marshalRepo r1 = marshalRepo r2 := by
    unfold marshalRepo
    rw [hHead, serializeMap_perm jsonString hRefs hRefsN,
      serializeMap_perm serializeCommit hCommits hCommitsN,
      serializeMap_notes_eq hNotes hNotesN hRows,
      if_congr (perm_nil_iff hRefs) rfl rfl,
      if_congr (perm_nil_iff hCommits) rfl rfl,
      if_congr hnotes_nil rfl rfl]
  unfold getRepoStateHash
  rw [hm]

set_option maxRecDepth 65536 in
/-- Witness for C7 (amended): reordering `mockRepo`'s ref table, notes table
and one note row leaves the state hash unchanged. -/
theorem repoStateHash_deterministic_witness :
    getRepoStateHash mockRepo = getRepoStateHash mockRepoShuffled := by
  have hrow : sortPairs [("B", TestDiscussB), ("D", TestDiscussD)] =
      sortPairs [("D", TestDiscussD), ("B", TestDiscussB)] :=
    sortPairs_perm_eq (List.Perm.swap _ _ _)
  refine repoStateHash_deterministic mockRepo mockRepoShuffled rfl ?_ (by decide) ?_
    (by decide) ?_ (by decide) (by decide)
  · exact List.Perm.swap _ _ _
  · exact List.Perm.refl _
  · simp only [mockRepo, mockRepoShuffled, List.map_cons, List.map_nil]
    rw [hrow]
    exact List.Perm.swap _ _ _

/-! ## Claim C8 -/

/-- C8: for every string `x` — known commit or not — `IsAncestor(x, x)`
returns `(true, nil)`: the equality test precedes any commit lookup, so no
not-found error can occur (one step of recursion always suffices). -/
theorem isAncestor_refl (r : MockRepo) (x : String) (fuel : Nat) :
    isAncestor r (fuel + 1) x x = some (true, none) := by
  simp [isAncestor]

/-! ## Claim C9 -/

/-- C9: `GetCommitHash` on a string that is a known commit identifier but not a
key of the ref table returns the empty string with a nil error (ref
verification succeeds through the raw-commit path, but the result is read
straight from the ref table). -/
theorem getCommitHash_known_commit_unrefed (r : MockRepo) (ref : String) (cm : MockCommit)
    (h1 : mapGet r.refs ref = none) (h2 : mapGet r.commits ref = some cm) :
    getCommitHash r ref = ("", none) := by
  simp [getCommitHash, verifyGitRef, resolveLocalRef, h1, h2]

/-- Witness for C9 at commit `"A"`, which is in the commit store but not a ref. -/
theorem getCommitHash_known_commit_unrefed_witness :
    getCommitHash mockRepo "A" = ("", none) :=
  getCommitHash_known_commit_unrefed mockRepo "A" ⟨"First commit", "0", []⟩
    (by decide) (by decide)

/-! ## Claim C10 -/

/-- C10: `SwitchToRef` always returns nil and leaves the caller's repository
value unchanged (the assignment lands on the value-receiver copy), so a
subsequent `GetHeadRef` still reports the old head. -/
theorem switchToRef_noop (r : MockRepo) (ref : String) :
    switchToRef r ref = (r, none) ∧ getHeadRef (switchToRef r ref).1 = (r.head, none) :=
  ⟨rfl, rfl⟩

end MockGit
